import Mathlib

/-!
Verification of the Dune Awakening data scraper (`get_data.py`).

The development shallowly embeds the scraper's pure logic in Lean:

* HTML documents (BeautifulSoup trees) become the inductive type `Node`;
  the BeautifulSoup traversal helpers used by the script (`find_all`,
  `find`, `get_text`, sibling iteration, `find_parent`) are implemented
  over `Node` with the same document-order semantics.
* Python strings are processed as `List Char`; the specific regular
  expressions appearing in the script are implemented as dedicated
  scanning functions with Python `re` leftmost-match semantics.
* Python floats are modelled by exact fractions (`PyFloat`); every value
  exercised by the theorems below is exactly representable in binary
  floating point, so the model agrees with CPython on those inputs.
* Network access is out of scope: page-level functions receive the parsed
  document, and `mainModel` abstracts the update-mode fetching behind an
  oracle, mirroring the script's CLI branch structure.
-/

/-! ## Character and string utilities -/

/-- Characters Python's `str.strip` / `re` `\s` treat as whitespace (ASCII). -/
def isWsC (c : Char) : Bool :=
  c = ' ' || c = '\t' || c = '\n' || c = '\r' || c = '\x0b' || c = '\x0c'

/-- Python `\w` word characters (ASCII fragment). -/
def isWordC (c : Char) : Bool :=
  c.isAlphanum || c = '_'

/-- View a Lean string as its character list. -/
def lc (s : String) : List Char := s.data

/-- Python `str.lower` (ASCII fragment). -/
def lowerC (cs : List Char) : List Char := cs.map Char.toLower

/-- Python `str.strip`. -/
def stripC (cs : List Char) : List Char :=
  ((cs.dropWhile isWsC).reverse.dropWhile isWsC).reverse

/-- Skip a maximal whitespace run (the deterministic reading of a greedy `\s*`). -/
def dropWs (cs : List Char) : List Char := cs.dropWhile isWsC

/-- Does `hay` start with `needle`? -/
def startsWithC : List Char → List Char → Bool
  | _, [] => true
  | [], _ :: _ => false
  | c :: cs, d :: ds => c = d && startsWithC cs ds

/-- Python's substring test `needle in hay`. -/
def containsSub (hay needle : List Char) : Bool :=
  match hay with
  | [] => needle.isEmpty
  | _ :: rest => startsWithC hay needle || containsSub rest needle

/-- Numeric value of a run of decimal digit characters (Python `int`). -/
def natOfDigits (ds : List Char) : Nat :=
  ds.foldl (fun a c => a * 10 + (c.toNat - 48)) 0

/-- Join chunks with a separator, like `separator.join(chunks)`. -/
def joinSep (sep : List Char) : List (List Char) → List Char
  | [] => []
  | [x] => x
  | x :: y :: rest => x ++ sep ++ joinSep sep (y :: rest)

/-- Python `max` over a list of ints (the script only applies it to
non-empty lists; the `[]` case is an unreachable sentinel). -/
def pyMax : List Nat → Nat
  | [] => 0
  | h :: t => t.foldl Nat.max h

/-! ## Exact model of the Python float values used by the script

`_parse_hours` produces Python floats.  All float values the claims touch
(`90/60`, `1.5`, `1.0`) are exactly representable in binary floating
point, so an exact fraction is a faithful model on those inputs. -/

/-- An unreduced non-negative fraction standing in for a Python float. -/
structure PyFloat where
  num : Nat
  den : Nat
deriving DecidableEq

/-- Equality of the rational values denoted by two `PyFloat`s. -/
def PyFloat.eqv (a b : PyFloat) : Prop := a.num * b.den = b.num * a.den

instance (a b : PyFloat) : Decidable (a.eqv b) := by
  unfold PyFloat.eqv; infer_instance

/-! ## The document model

`Node` models a parsed BeautifulSoup tree: a text node (NavigableString)
or an element with a tag name, attributes and children.  The given root
node plays the role of the `soup` document object: searches cover its
descendants, never the root itself, exactly as with BeautifulSoup. -/

inductive Node where
  | text : String → Node
  | elem : String → List (String × String) → List Node → Node

/-- Tag name of an element node. -/
def Node.tag : Node → Option String
  | .text _ => none
  | .elem t _ _ => some t

/-- Attribute lookup, `tag.get(key)`. -/
def Node.attr (n : Node) (key : String) : Option String :=
  match n with
  | .text _ => none
  | .elem _ attrs _ => (attrs.find? (fun p => p.1 == key)).map (·.2)

mutual
/-- All descendant text-node contents, in document order (`tag.strings`). -/
def nodeTexts : Node → List (List Char)
  | .text s => [s.data]
  | .elem _ _ cs => nodeTextsL cs
def nodeTextsL : List Node → List (List Char)
  | [] => []
  | c :: cs => nodeTexts c ++ nodeTextsL cs
end

/-- `tag.get_text(" ", strip=True)`: strip every string, drop the empty
ones, join with a single space. -/
def getTextSpStrip (n : Node) : List Char :=
  joinSep [' '] (((nodeTexts n).map stripC).filter (fun x => !x.isEmpty))

/-- `tag.get_text(strip=True)`: strip every string, drop the empty ones,
concatenate. -/
def getTextStrip (n : Node) : List Char :=
  joinSep [] (((nodeTexts n).map stripC).filter (fun x => !x.isEmpty))

/-- `tag.get_text()`: concatenate the raw strings. -/
def getTextRaw (n : Node) : List Char :=
  joinSep [] (nodeTexts n)

mutual
/-- `tag.find_all(name)`: all descendant elements with the given tag, in
document (preorder) order. -/
def findAll (tag : String) : Node → List Node
  | .text _ => []
  | .elem _ _ cs => findAllL tag cs
def findAllL (tag : String) : List Node → List Node
  | [] => []
  | c :: cs =>
    (match c with
     | .text _ => []
     | .elem t _ _ => (if t = tag then [c] else []) ++ findAll tag c) ++ findAllL tag cs
end

/-- `tag.find(name)`: first matching descendant element or `None`. -/
def findFirst (tag : String) (n : Node) : Option Node :=
  (findAll tag n).head?

mutual
/-- Locate the first descendant (preorder) satisfying `p`.  Returns the
match, its following siblings, and for every proper ancestor below the
root (nearest first) the ancestor together with the ancestor's own
following siblings.  This is the context needed to model
`find_parent(...)` / `find_next_sibling(...)` chains. -/
def findCtx (p : Node → Bool) : Node → Option (Node × List Node × List (Node × List Node))
  | .text _ => none
  | .elem _ _ cs => findCtxL p cs
def findCtxL (p : Node → Bool) : List Node → Option (Node × List Node × List (Node × List Node))
  | [] => none
  | c :: cs =>
    if p c then some (c, cs, [])
    else
      match findCtx p c with
      | some (m, aft, ups) => some (m, aft, ups ++ [(c, cs)])
      | none => findCtxL p cs
end

mutual
/-- All descendant anchors (`find_all('a')`) with, for each, its preceding
siblings (document order) and its following siblings inside its parent. -/
def anchorsCtx : Node → List (List Node × Node × List Node)
  | .text _ => []
  | .elem _ _ cs => anchorsCtxL [] cs
def anchorsCtxL (before : List Node) : List Node → List (List Node × Node × List Node)
  | [] => []
  | c :: cs =>
    (match c with
     | .text _ => []
     | .elem t _ _ => (if t = "a" then [(before, c, cs)] else []) ++ anchorsCtx c) ++
      anchorsCtxL (before ++ [c]) cs
end

/-- Is this node an `h2`/`h3` heading element? -/
def isHeading (n : Node) : Bool :=
  match n with
  | .elem t _ _ => t = "h2" || t = "h3"
  | .text _ => false

/-- First element sibling with the given tag (`find_next_sibling(tag)`):
string siblings are skipped, element siblings with other tags too. -/
def firstElemWithTag (tag : String) : List Node → Option Node
  | [] => none
  | c :: cs =>
    match c with
    | .elem t _ _ => if t = tag then some c else firstElemWithTag tag cs
    | .text _ => firstElemWithTag tag cs

/-! ## Regular-expression scanners

Each function implements one concrete regex of `get_data.py` with Python
`re.search`/`re.match`/`finditer` semantics (leftmost match, with the
backtracking behaviour worked out for the specific pattern).  Keyword
alternations whose alternatives are mutually prefix-free match at most
one alternative at a given position, so they are decided by a first-match
scan; alternations containing prefixes of one another (`m`/`min`/... ,
unit words) additionally check the following word boundary in the order
the pattern lists the alternatives. -/

/-- `_extract_int` (line 105): `re.search(r"\d+", text)`, leftmost maximal
digit run, as an integer. -/
def extractInt : List Char → Option Nat
  | [] => none
  | c :: rest =>
    if c.isDigit then some (natOfDigits (c :: rest.takeWhile Char.isDigit))
    else extractInt rest

/-- Match one keyword of a prefix-free alternation at the current
position, returning the rest of the input. -/
def matchKw (kws : List String) (s : List Char) : Option (List Char) :=
  kws.findSome? (fun kw => if startsWithC s (lc kw) then some (s.drop (lc kw).length) else none)

/-- After a power keyword: `\s*[:=]?\s*(\d+)`. -/
def numAfterSep (s : List Char) : Option Nat :=
  let r1 := dropWs s
  let r2 := match r1 with
    | c :: rest => if c = ':' ∨ c = '=' then rest else r1
    | [] => r1
  let ds := (dropWs r2).takeWhile Char.isDigit
  if ds.isEmpty then none else some (natOfDigits ds)

/-- One attempt of `power\s*(?:kw|...)\s*[:=]?\s*(\d+)` at the current
position of the (lowercased) page text. -/
def powerPhraseAt (kws : List String) (s : List Char) : Option Nat :=
  if startsWithC s (lc "power") then
    match matchKw kws (dropWs (s.drop 5)) with
    | some r => numAfterSep r
    | none => none
  else none

/-- `re.search` driver for `powerPhraseAt`: leftmost match wins. -/
def searchPowerPhrase (kws : List String) : List Char → Option Nat
  | [] => none
  | c :: rest => powerPhraseAt kws (c :: rest) <|> searchPowerPhrase kws rest

/-- `re.search(r"x\s*(\d+)", s, re.IGNORECASE)` (lines 472/536/542). -/
def searchXNum : List Char → Option Nat
  | [] => none
  | c :: rest =>
    (if c = 'x' ∨ c = 'X' then
       let ds := (dropWs rest).takeWhile Char.isDigit
       if ds.isEmpty then none else some (natOfDigits ds)
     else none) <|> searchXNum rest

/-- `re.search(r"(\d+)\s*[xX]", s)` (line 554).  A shortened digit run is
never followed by `x`, so the greedy run needs no backtracking. -/
def searchNumX : List Char → Option Nat
  | [] => none
  | c :: rest =>
    (if c.isDigit then
       let ds := c :: rest.takeWhile Char.isDigit
       match dropWs (rest.drop (ds.length - 1)) with
       | d :: _ => if d = 'x' ∨ d = 'X' then some (natOfDigits ds) else none
       | [] => none
     else none) <|> searchNumX rest

/-! ### `_parse_quantity_and_name` (lines 82-102) -/

/-- Replace each whitespace character by a space and collapse runs,
modelling `re.sub(r"\s+", " ", text)`. -/
def dedupSp : List Char → List Char
  | [] => []
  | c :: rest =>
    let r := dedupSp rest
    if c = ' ' then (match r with | ' ' :: _ => r | _ => c :: r) else c :: r

/-- The whitespace normalisation applied to the input of
`_parse_quantity_and_name`. -/
def normWs (cs : List Char) : List Char :=
  stripC (dedupSp (cs.map (fun c => if isWsC c then ' ' else c)))

/-- Pattern `^(?P<qty>\d+)\s*[xX]\s*(?P<name>.+)$`. -/
def patQtyXName (t : List Char) : Option (Nat × List Char) :=
  let ds := t.takeWhile Char.isDigit
  if ds.isEmpty then none else
  match dropWs (t.drop ds.length) with
  | c :: r2 =>
    if c = 'x' ∨ c = 'X' then
      let nm := dropWs r2
      if nm.isEmpty then none else some (natOfDigits ds, stripC nm)
    else none
  | [] => none

/-- Suffix `\s*[xX]\s*(?P<qty>\d+)$` of the second pattern. -/
def patNameXQtySuffix (r : List Char) : Option Nat :=
  match dropWs r with
  | c :: r2 =>
    if c = 'x' ∨ c = 'X' then
      let r3 := dropWs r2
      let ds := r3.takeWhile Char.isDigit
      if ds.isEmpty || !(r3.drop ds.length).isEmpty then none else some (natOfDigits ds)
    else none
  | [] => none

/-- Lazy-name scan of `^(?P<name>.+?)\s*[xX]\s*(?P<qty>\d+)$`: the
shortest non-empty name whose suffix matches wins. -/
def patNameXQtyGo (nameRev : List Char) : List Char → Option (Nat × List Char)
  | [] => none
  | c :: rest =>
    match patNameXQtySuffix rest with
    | some q => some (q, stripC (c :: nameRev).reverse)
    | none => patNameXQtyGo (c :: nameRev) rest

/-- Pattern `^(?P<name>.+?)\s*[xX]\s*(?P<qty>\d+)$`. -/
def patNameXQty (t : List Char) : Option (Nat × List Char) := patNameXQtyGo [] t

/-- Suffix `\s*\((?P<qty>\d+)\)$` of the third pattern. -/
def patParenSuffix (r : List Char) : Option Nat :=
  match dropWs r with
  | '(' :: r2 =>
    let ds := r2.takeWhile Char.isDigit
    if ds.isEmpty then none else
    match r2.drop ds.length with
    | [')'] => some (natOfDigits ds)
    | _ => none
  | _ => none

/-- Lazy-name scan of `^(?P<name>.+?)\s*\((?P<qty>\d+)\)$`. -/
def patParenGo (nameRev : List Char) : List Char → Option (Nat × List Char)
  | [] => none
  | c :: rest =>
    match patParenSuffix rest with
    | some q => some (q, stripC (c :: nameRev).reverse)
    | none => patParenGo (c :: nameRev) rest

/-- Pattern `^(?P<name>.+?)\s*\((?P<qty>\d+)\)$`. -/
def patNameParenQty (t : List Char) : Option (Nat × List Char) := patParenGo [] t

/-- Pattern `^(?P<qty>\d+)\s+(?P<name>.+)$`, and (with `nonempty := false`)
the final fallback `^(\d+)\s+(.*)$`. -/
def patQtySpName (nonempty : Bool) (t : List Char) : Option (Nat × List Char) :=
  let ds := t.takeWhile Char.isDigit
  if ds.isEmpty then none else
  match t.drop ds.length with
  | c :: r2 =>
    if isWsC c then
      let nm := dropWs r2
      if nonempty && nm.isEmpty then none else some (natOfDigits ds, stripC nm)
    else none
  | [] => none

/-- `_parse_quantity_and_name` on character lists; `none` models the
Python result `(None, None)`. -/
def parseQtyNameC (cs : List Char) : Option (Nat × List Char) :=
  let t := normWs cs
  patQtyXName t <|> patNameXQty t <|> patNameParenQty t <|>
    patQtySpName true t <|> patQtySpName false t

/-- `_parse_quantity_and_name` with string input and output. -/
def parse_quantity_and_name (s : String) : Option (Nat × String) :=
  (parseQtyNameC s.data).map (fun p => (p.1, String.mk p.2))

/-! ### `_parse_hours` (lines 253-272) -/

/-- Numeric prefix candidates for `(\d+(?:\.\d+)?)`: the greedy reading
(with the optional fraction) first, then the fraction-free reading when a
fraction is present. -/
def numCands (s : List Char) : List (PyFloat × List Char) :=
  let ds := s.takeWhile Char.isDigit
  if ds.isEmpty then [] else
  let rest := s.drop ds.length
  let whole : PyFloat × List Char := (⟨natOfDigits ds, 1⟩, rest)
  match rest with
  | '.' :: r2 =>
    let fs := r2.takeWhile Char.isDigit
    if fs.isEmpty then [whole]
    else (⟨natOfDigits ds * 10 ^ fs.length + natOfDigits fs, 10 ^ fs.length⟩,
           r2.drop fs.length) :: [whole]
  | _ => [whole]

/-- Unit alternation with a trailing `\b`: try the alternatives in the
pattern's order; an alternative matches when it is a literal prefix and
the next character (if any) is not a word character. -/
def matchUnit (units : List String) (s : List Char) : Bool :=
  units.any (fun u =>
    startsWithC s (lc u) &&
      (match s.drop (lc u).length with
       | [] => true
       | d :: _ => !isWordC d))

/-- One attempt of `(\d+(?:\.\d+)?)\s*(?:unit|...)\b` at this position. -/
def numUnitAt (units : List String) (s : List Char) : Option PyFloat :=
  (numCands s).findSome? (fun p =>
    if matchUnit units (dropWs p.2) then some p.1 else none)

/-- `re.search` driver for `numUnitAt`. -/
def searchNumUnit (units : List String) : List Char → Option PyFloat
  | [] => none
  | c :: rest => numUnitAt units (c :: rest) <|> searchNumUnit units rest

/-- One attempt of `x\s*(\d+(?:\.\d+)?)\s*h\b` at this position (the
input is already lowercased by `_parse_hours`). -/
def xNumHAt (s : List Char) : Option PyFloat :=
  match s with
  | 'x' :: r1 =>
    (numCands (dropWs r1)).findSome? (fun p =>
      if matchUnit ["h"] (dropWs p.2) then some p.1 else none)
  | _ => none

/-- `re.search` driver for `xNumHAt`. -/
def searchXNumH : List Char → Option PyFloat
  | [] => none
  | c :: rest => xNumHAt (c :: rest) <|> searchXNumH rest

/-- One attempt of `(\d+(?:\.\d+)?)h\b` (no space before the `h`). -/
def numHAt (s : List Char) : Option PyFloat :=
  (numCands s).findSome? (fun p => if matchUnit ["h"] p.2 then some p.1 else none)

/-- `re.search` driver for `numHAt`. -/
def searchNumH : List Char → Option PyFloat
  | [] => none
  | c :: rest => numHAt (c :: rest) <|> searchNumH rest

/-- `_parse_hours`: minutes first (divided by 60), then hour words, then
the compact `x1h` and `1h` forms. -/
def parse_hours (s : String) : Option PyFloat :=
  if s.data.isEmpty then none else
  let t := lowerC (stripC s.data)
  ((searchNumUnit ["m", "min", "mins", "minute", "minutes"] t).map
      (fun q => ⟨q.num, q.den * 60⟩)) <|>
    searchNumUnit ["h", "hr", "hrs", "hour", "hours"] t <|>
    searchXNumH t <|> searchNumH t

/-! ## Power extraction (`parse_power_from_page`, lines 110-187) -/

/-- Consume-side label vocabulary (line 126). -/
def LABELS_CONSUME : List String :=
  ["power draw", "power consumption", "consumption", "consumes",
   "power required", "required power", "power requirement", "use", "usage"]

/-- Provide-side label vocabulary (line 130). -/
def LABELS_PROVIDE : List String :=
  ["power provided", "power output", "power generation", "generates", "generated",
   "provided power", "generator output", "produces", "produced"]

/-- Page title: first `h1`, else the `title` element, else empty
(lines 117-122). -/
def pageTitle (soup : Node) : List Char :=
  match findFirst "h1" soup with
  | some h => getTextSpStrip h
  | none =>
    match findFirst "title" soup with
    | some t => getTextSpStrip t
    | none => []

/-- Generator classification of the page by its title (line 123). -/
def isGeneratorPage (soup : Node) : Bool :=
  containsSub (lowerC (pageTitle soup)) (lc "generator")

/-- Label/value cell selection shared by the power and water row scans
(lines 134-145 and 213-217): label is the first `th`, else the first of
at least two `td`s; value is the second `td`, else the single `td` when a
`th` is present. -/
def rowLabelValue (row : Node) : Option (Node × Node) :=
  let tds := findAll "td" row
  let th := findFirst "th" row
  let labelEl : Option Node :=
    match th with
    | some t => some t
    | none => if 2 ≤ tds.length then tds.head? else none
  let valueEl : Option Node :=
    if 2 ≤ tds.length then tds.get? 1
    else if tds.length = 1 ∧ th.isSome then tds.head? else none
  match labelEl, valueEl with
  | some l, some v => some (l, v)
  | _, _ => none

/-- Intermediate state of the power scan. -/
structure PowerScan where
  provides : Nat
  consumes : Nat
  ambiguous : List Nat
deriving DecidableEq

/-- One table row of the power scan (lines 134-164): provide labels first,
then consume labels, then ambiguous rows whose label merely contains
"power"; zero or missing values are dropped (`if n:`). -/
def powerRowStep (st : PowerScan) (row : Node) : PowerScan :=
  match rowLabelValue row with
  | none => st
  | some (l, v) =>
    let label := lowerC (getTextSpStrip l)
    let valText := getTextSpStrip v
    if LABELS_PROVIDE.any (fun lbl => containsSub label (lc lbl)) then
      match extractInt valText with
      | some n => if n ≠ 0 then { st with provides := Nat.max st.provides n } else st
      | none => st
    else if LABELS_CONSUME.any (fun lbl => containsSub label (lc lbl)) then
      match extractInt valText with
      | some n => if n ≠ 0 then { st with consumes := Nat.max st.consumes n } else st
      | none => st
    else if containsSub label (lc "power") then
      match extractInt valText with
      | some n => if n ≠ 0 then { st with ambiguous := st.ambiguous ++ [n] } else st
      | none => st
    else st

/-- The table-based power scan over every `tr` of the page. -/
def powerTableScan (soup : Node) : PowerScan :=
  (findAll "tr" soup).foldl powerRowStep ⟨0, 0, []⟩

/-- Table scan followed by the text-based regex fallback (lines 166-173):
the provide phrase fills `provides` only if it is still zero; the consume
phrase fills `consumes` only if it is still zero and no provide phrase
matched anywhere. -/
def powerAfterText (soup : Node) : PowerScan :=
  let st := powerTableScan soup
  let text := lowerC (getTextSpStrip soup)
  let mProv := searchPowerPhrase
    ["provided", "output", "generation", "generated", "produced", "produces"] text
  let mCons := searchPowerPhrase
    ["draw", "consumption", "required", "requirement", "use", "usage"] text
  let p := if mProv.isSome ∧ st.provides = 0 then mProv.getD 0 else st.provides
  let c := if mCons.isSome ∧ st.consumes = 0 ∧ mProv.isNone then mCons.getD 0 else st.consumes
  ⟨p, c, st.ambiguous⟩

/-- Ambiguous-value resolution (lines 176-180): when nothing labelled was
found, the largest ambiguous value goes to the side selected by the page
classification. -/
def powerResolved (soup : Node) : Nat × Nat :=
  if (powerAfterText soup).ambiguous ≠ [] ∧ (powerAfterText soup).provides = 0 ∧
      (powerAfterText soup).consumes = 0 then
    if isGeneratorPage soup then (pyMax (powerAfterText soup).ambiguous, (powerAfterText soup).consumes)
    else ((powerAfterText soup).provides, pyMax (powerAfterText soup).ambiguous)
  else ((powerAfterText soup).provides, (powerAfterText soup).consumes)

/-- `parse_power_from_page` result record. -/
structure PowerInfo where
  Provides : Nat
  Consumes : Nat
deriving DecidableEq

/-- `parse_power_from_page` (lines 110-187), ending with the generator
heuristic of lines 184-186: when both sides are non-zero, consumption is
assumed misclassified and zeroed. -/
def parse_power_from_page (soup : Node) : PowerInfo :=
  if 0 < (powerResolved soup).1 ∧ 0 < (powerResolved soup).2 then ⟨(powerResolved soup).1, 0⟩
  else ⟨(powerResolved soup).1, (powerResolved soup).2⟩

/-! ## Water-capacity extraction (`parse_water_capacity_from_page`,
lines 190-250) -/

/-- `_parse_liters` (lines 200-211): leftmost digit starts a greedy run of
digits, commas and dots; commas are stripped; `int(float(num))` truncates,
i.e. keeps the digits before the first dot; more than one dot raises
`ValueError`, modelled as `none`.  (Exact arithmetic stands in for the
float round-trip; the values exercised here are far below any rounding.) -/
def searchLitersNum : List Char → Option Nat
  | [] => none
  | c :: rest =>
    if c.isDigit then
      let run := c :: rest.takeWhile (fun d => d.isDigit || d = ',' || d = '.')
      let num := run.filter (fun d => d ≠ ',')
      if (num.filter (fun d => d = '.')).length ≤ 1 then
        some (natOfDigits (num.takeWhile Char.isDigit))
      else none
    else searchLitersNum rest

/-- `_parse_liters` including the empty-input guard. -/
def parseLiters (s : List Char) : Option Nat :=
  if s.isEmpty then none else searchLitersNum s

/-- `re.search(r"\b(l|liter|litre|liters|litres)\b", val_text, re.I)`
(line 224): some liter word occurs delimited by word boundaries. -/
def mentionsLitersGo (prev : Option Char) : List Char → Bool
  | [] => false
  | c :: rest =>
    (match prev with
     | some p => !isWordC p
     | none => true) &&
      (["l", "liter", "litre", "liters", "litres"].any (fun w =>
        startsWithC (c :: rest) (lc w) &&
          (match (c :: rest).drop (lc w).length with
           | [] => true
           | d :: _ => !isWordC d))) ||
      mentionsLitersGo (some c) rest

/-- Word-boundary liter-unit search on the (lowercased) value text. -/
def mentionsLiters (s : List Char) : Bool :=
  mentionsLitersGo none (lowerC s)

/-- One table row of the water scan (lines 213-233). -/
def waterRowLiters (row : Node) : Option Nat :=
  match rowLabelValue row with
  | none => none
  | some (l, v) =>
    let label := lowerC (getTextSpStrip l)
    let valText := getTextSpStrip v
    let labelHasWater := containsSub label (lc "water") ∨ containsSub label (lc "liquid")
    let labelHasCapacity := ["capacity", "storage", "volume", "tank"].any
      (fun w => containsSub label (lc w))
    if labelHasWater ∧ labelHasCapacity then parseLiters valText
    else if (containsSub label (lc "capacity") ∨ containsSub label (lc "storage")) ∧
        mentionsLiters valText then
      parseLiters valText
    else none

/-- Maximum capacity over all matching table rows. -/
def waterTableScan (soup : Node) : Nat :=
  (findAll "tr" soup).foldl
    (fun acc row =>
      match waterRowLiters row with
      | some litersFound => Nat.max acc litersFound
      | none => acc) 0

/-- Number-then-liter-unit tail of the text fallback regex:
`(\d[\d,\.]*)\s*(l|liter|litre|liters|litres)` on lowercased text.  Every
alternative begins with `l`, so the unit test is a single character check;
the `ValueError` branch of line 247 yields 0. -/
def waterNumUnit (s : List Char) : Option Nat :=
  match s with
  | c :: rest =>
    if c.isDigit then
      let run := c :: rest.takeWhile (fun d => d.isDigit || d = ',' || d = '.')
      match dropWs (rest.drop (run.length - 1)) with
      | 'l' :: _ =>
        let num := run.filter (fun d => d ≠ ',')
        if (num.filter (fun d => d = '.')).length ≤ 1 then
          some (natOfDigits (num.takeWhile Char.isDigit))
        else some 0
      | _ => none
    else none
  | [] => none

/-- Bounded lazy gap `[^\n]{0,maxGap}?` followed by the continuation:
smallest gap first, gap characters may not be newlines. -/
def lazyGap (maxGap : Nat) (k : List Char → Option Nat) (s : List Char) : Option Nat :=
  (List.range (maxGap + 1)).findSome? (fun g =>
    if g ≤ s.length ∧ (s.take g).all (fun c => c ≠ '\n') then k (s.drop g) else none)

/-- One attempt of the water text-fallback regex (lines 238-242) at the
current position of the lowercased page text:
`(water|liquid)[^\n]{0,40}?(capacity|storage|volume)[^\n]{0,15}?` then the
number/unit tail. -/
def waterPhraseAt (s : List Char) : Option Nat :=
  match matchKw ["water", "liquid"] s with
  | none => none
  | some r1 =>
    lazyGap 40 (fun r2 =>
      match matchKw ["capacity", "storage", "volume"] r2 with
      | none => none
      | some r3 => lazyGap 15 waterNumUnit r3) r1

/-- `re.search` driver for the water text fallback. -/
def searchWaterPhrase : List Char → Option Nat
  | [] => none
  | c :: rest => waterPhraseAt (c :: rest) <|> searchWaterPhrase rest

/-- `parse_water_capacity_from_page` (lines 190-250): the row scan's
maximum, falling back to the page-text regex when the maximum is zero. -/
def parse_water_capacity_from_page (soup : Node) : Nat :=
  let cap := waterTableScan soup
  if cap = 0 then
    match searchWaterPhrase (lowerC (getTextSpStrip soup)) with
    | some n => n
    | none => 0
  else cap

/-! ## Recipe extraction (`scrape_recipe_from_page`, lines 378-626)

The network fetch is abstracted away: the function below receives the
parsed page and computes the `Recipe` component of the result.  `none`
models the uncaught `AttributeError` raised at line 584 when a
`span#Recipe` exists whose parent chain has no `h2`/`h3` heading. -/

/-- One recipe component. -/
structure RecipeEntry where
  Name : String
  Count : Nat
deriving DecidableEq

/-- `re.sub(r"\b\d+\b|x|\(|\)", "", li_text, flags=re.IGNORECASE)`
(line 430): remove word-bounded digit runs, every `x`/`X` and every
parenthesis; scanning is left to right over the original string. -/
def rsubNameGo (fuel : Nat) (prev : Option Char) (s : List Char) : List Char :=
  match fuel, s with
  | 0, _ => []
  | _, [] => []
  | fuel' + 1, c :: rest =>
    let boundaryBefore := match prev with
      | some p => !isWordC p
      | none => true
    if c.isDigit && boundaryBefore then
      let run := c :: rest.takeWhile Char.isDigit
      let rest' := rest.drop (run.length - 1)
      if (match rest' with | [] => true | d :: _ => !isWordC d) then
        rsubNameGo fuel' (some (run.getLastD c)) rest'
      else c :: rsubNameGo fuel' (some c) rest
    else if c = 'x' || c = 'X' || c = '(' || c = ')' then rsubNameGo fuel' (some c) rest
    else c :: rsubNameGo fuel' (some c) rest

/-- The last-resort name cleanup of line 430, including the `.strip()`. -/
def cleanupName (s : List Char) : List Char :=
  stripC (rsubNameGo s.length none s)

/-- One `li` of a Build Cost list (lines 420-437): quantity/name from
`_parse_quantity_and_name`, name falling back to the first anchor's text
and then to the cleaned-up text, quantity falling back to the first digit
run; pairs with a missing name or a falsy quantity are dropped. -/
def liEntryList (li : Node) : Option RecipeEntry :=
  let liText := getTextSpStrip li
  let pq := match parseQtyNameC liText with
    | some p => p
    | none => (0, [])
  let nm1 := if pq.2.isEmpty then
      (match findFirst "a" li with
       | some a => getTextStrip a
       | none => [])
    else pq.2
  let nm2 := if nm1.isEmpty then cleanupName liText else nm1
  let qty := if pq.1 = 0 then
      (match extractInt liText with
       | some n => n
       | none => 0)
    else pq.1
  if !nm2.isEmpty && qty ≠ 0 then some ⟨String.mk nm2, qty⟩ else none

/-- One `li` inside a table cell (lines 455-460 and 515-520): only
`_parse_quantity_and_name`, guarded by `if name and qty`. -/
def cellLiEntry (li : Node) : Option RecipeEntry :=
  match parseQtyNameC (getTextSpStrip li) with
  | some (q, nm) => if !nm.isEmpty && q ≠ 0 then some ⟨String.mk nm, q⟩ else none
  | none => none

/-- A standard two-cell row (lines 497-506): linked name, numeric
quantity, guarded by `if item_name and qty`. -/
def twoCellEntry (c0 c1 : Node) : Option RecipeEntry :=
  let nm := match findFirst "a" c0 with
    | some a => getTextStrip a
    | none => getTextStrip c0
  match extractInt (getTextStrip c1) with
  | some q => if !nm.isEmpty && q ≠ 0 then some ⟨String.mk nm, q⟩ else none
  | none => none

/-- The plain-text scan shared by lines 482-489 and 568-576:
`([A-Za-z][A-Za-z0-9 '\-()]+?)\s*[xX]\s*(\d+)` over the cell text with
`finditer`, skipping the generic labels; the extracted count is *not*
checked against zero on this path. -/
def patClassChar (c : Char) : Bool :=
  c.isAlphanum || c = ' ' || c = '\x27' || c = '-' || c = '(' || c = ')'

/-- Tail `\s*[xX]\s*(\d+)` of the plain-text pattern, returning the
quantity and the input remaining after the match. -/
def patTextTail (s : List Char) : Option (Nat × List Char) :=
  match dropWs s with
  | c :: r2 =>
    if c = 'x' || c = 'X' then
      let r3 := dropWs r2
      let ds := r3.takeWhile Char.isDigit
      if ds.isEmpty then none else some (natOfDigits ds, r3.drop ds.length)
    else none
  | [] => none

/-- Lazy growth of the name group `[A-Za-z0-9 '\-()]+?`: the shortest
extension whose tail matches wins. -/
def patTextGrow (acc : List Char) : List Char → Option (List Char × Nat × List Char)
  | [] => none
  | c :: rest =>
    if patClassChar c then
      match patTextTail rest with
      | some (q, after) => some (acc ++ [c], q, after)
      | none => patTextGrow (acc ++ [c]) rest
    else none

/-- One attempt of the plain-text pattern at the current position. -/
def patTextAt : List Char → Option (List Char × Nat × List Char)
  | [] => none
  | c :: rest =>
    if c.isAlpha then (patTextGrow [] rest).map (fun r => (c :: r.1, r.2.1, r.2.2)) else none

/-- `finditer` driver: leftmost, non-overlapping, resuming after each
match; the fuel is the input length (every step consumes a character). -/
def finditerPat (fuel : Nat) (s : List Char) : List (List Char × Nat) :=
  match fuel, s with
  | 0, _ => []
  | _, [] => []
  | fuel' + 1, c :: rest =>
    match patTextAt (c :: rest) with
    | some (nm, q, after) => (stripC nm, q) :: finditerPat fuel' after
    | none => finditerPat fuel' rest

/-- Entries of the plain-text fallback: every match whose lowercased name
is not a generic label, with no zero-count guard. -/
def plainTextEntries (cellText : List Char) : List RecipeEntry :=
  (finditerPat cellText.length cellText).filterMap (fun p =>
    if lowerC p.1 = lc "components" ∨ lowerC p.1 = lc "requirements" ∨
        lowerC p.1 = lc "materials" then none
    else some ⟨String.mk p.1, p.2⟩)

/-- The text in which the header+single-cell branch looks for a quantity
(lines 470-471): the anchor's immediate next sibling, raw when it is a
string, its text otherwise, empty when absent (`a.next_sibling` or the
empty string). -/
def hdrAroundText (nexts : List Node) : List Char :=
  match nexts.head? with
  | some (Node.text s) => s.data
  | some nd => getTextSpStrip nd
  | none => []

/-- One anchor of the header+single-cell branch (lines 465-477): name
from the anchor text, quantity from an `x<N>` marker in the text of the
anchor's immediate next sibling, dedup by name, guarded by `if qty`. -/
def hdrAnchorStep (st : List String × List RecipeEntry) (ctx : List Node × Node × List Node) :
    List String × List RecipeEntry :=
  if (getTextStrip ctx.2.1).isEmpty then st
  else
    match searchXNum (hdrAroundText ctx.2.2) with
    | some q =>
      if q ≠ 0 ∧ String.mk (getTextStrip ctx.2.1) ∉ st.1 then
        (st.1 ++ [String.mk (getTextStrip ctx.2.1)],
         st.2 ++ [⟨String.mk (getTextStrip ctx.2.1), q⟩])
      else st
    | none => st

/-- Anchor loop of the header+single-cell branch (lines 463-477). -/
def hdrCellAnchorFold (cell : Node) : List RecipeEntry :=
  ((anchorsCtx cell).foldl hdrAnchorStep ([], [])).2

/-- First following sibling carrying an `x<N>` marker (lines 534-545):
string siblings are searched raw, element siblings by their text. -/
def scanNexts : List Node → Option Nat
  | [] => none
  | (Node.text s) :: rest => searchXNum s.data <|> scanNexts rest
  | nd :: rest => searchXNum (getTextSpStrip nd) <|> scanNexts rest

/-- Concatenated text of the preceding siblings (lines 548-553), built in
document order: raw strings joined directly, element texts followed by a
space. -/
def prevSibText (prevs : List Node) : List Char :=
  prevs.foldr (fun nd acc =>
    match nd with
    | Node.text s => s.data ++ acc
    | nd' => getTextSpStrip nd' ++ [' '] ++ acc) []

/-- Quantity search of the bare single-cell branch (lines 533-555):
the following siblings first, then the preceding text. -/
def singleAnchorQty (ctx : List Node × Node × List Node) : Option Nat :=
  match scanNexts ctx.2.2 with
  | some q => some q
  | none => searchNumX (prevSibText ctx.1)

/-- One anchor of the bare single-cell branch (lines 528-561): skip
empty or already-seen names, quantity from the following siblings then
from a `<N>x` marker in the preceding text, guarded by `if qty`. -/
def singleAnchorStep (st : List String × List RecipeEntry) (ctx : List Node × Node × List Node) :
    List String × List RecipeEntry :=
  if (getTextStrip ctx.2.1).isEmpty ∨ String.mk (getTextStrip ctx.2.1) ∈ st.1 then st
  else
    match singleAnchorQty ctx with
    | some q =>
      if q ≠ 0 then
        (st.1 ++ [String.mk (getTextStrip ctx.2.1)],
         st.2 ++ [⟨String.mk (getTextStrip ctx.2.1), q⟩])
      else st
    | none => st

/-- Anchor loop of the bare single-cell branch (lines 524-561). -/
def singleCellAnchors (cell : Node) : List RecipeEntry :=
  ((anchorsCtx cell).foldl singleAnchorStep ([], [])).2

/-- The header+single-cell branch (lines 448-490): embedded list first,
then anchors, then the plain-text scan. -/
def hdrSingleCell (cell : Node) : List RecipeEntry :=
  let lis := findAll "li" cell
  if !lis.isEmpty then lis.filterMap cellLiEntry
  else if !(anchorsCtx cell).isEmpty then hdrCellAnchorFold cell
  else plainTextEntries (getTextSpStrip cell)

/-- The bare single-cell branch (lines 508-576).  The plain-text fallback
fires only when the whole recipe accumulated so far is still empty
(`if not recipe:`, line 564), hence the accumulator parameter. -/
def singleCellProcess (acc : List RecipeEntry) (cell : Node) : List RecipeEntry :=
  let lis := findAll "li" cell
  if !lis.isEmpty then acc ++ lis.filterMap cellLiEntry
  else
    let withAnchors := acc ++ singleCellAnchors cell
    if withAnchors.isEmpty then plainTextEntries (getTextSpStrip cell) else withAnchors

/-- One row of a Build Cost table (lines 444-576): header plus single
cell, header-only rows skipped (this also skips header rows that carry
two or more data cells), standard two-cell rows, then bare single cells. -/
def buildRowStep (acc : List RecipeEntry) (row : Node) : List RecipeEntry :=
  let headers := findAll "th" row
  let cells := findAll "td" row
  if !headers.isEmpty ∧ cells.length = 1 then
    match cells with
    | cell :: _ => acc ++ hdrSingleCell cell
    | [] => acc
  else if !headers.isEmpty then acc
  else
    match cells with
    | c0 :: c1 :: _ => acc ++ (twoCellEntry c0 c1).toList
    | [cell] => singleCellProcess acc cell
    | [] => acc

/-- Walk the siblings following the Build Cost heading (lines 410-577):
stop at the next `h2`/`h3`, fire on the first `ul`/`ol` or `table`. -/
def parseSectionSibs : List Node → List RecipeEntry
  | [] => []
  | (Node.text _) :: rest => parseSectionSibs rest
  | (Node.elem t a ch) :: rest =>
    if t = "h2" ∨ t = "h3" then []
    else if t = "ul" ∨ t = "ol" then
      (findAll "li" (Node.elem t a ch)).filterMap liEntryList
    else if t = "table" then
      (findAll "tr" (Node.elem t a ch)).foldl buildRowStep []
    else parseSectionSibs rest

/-- Is this node a `span` with the given `id` attribute? -/
def isSpanWithId (idv : String) (n : Node) : Bool :=
  match n with
  | .elem "span" _ _ => n.attr "id" == some idv
  | _ => false

/-- Siblings following the heading that contains `span#idv`
(lines 392-399): the span's nearest `h2`/`h3` ancestor; `none` when the
span is missing or has no heading ancestor (the loop then tries the next
id candidate). -/
def headingSibsViaSpan (idv : String) (soup : Node) : Option (List Node) :=
  match findCtx (isSpanWithId idv) soup with
  | none => none
  | some (_, _, ups) =>
    match ups.find? (fun u => isHeading u.1) with
    | some u => some u.2
    | none => none

/-- Siblings following the first `h2`/`h3` whose text contains
"build cost" (lines 401-407). -/
def headingSibsViaText (soup : Node) : Option (List Node) :=
  (findCtx (fun n => isHeading n && containsSub (lowerC (getTextStrip n)) (lc "build cost"))
      soup).map
    (fun r => r.2.1)

/-- Build Cost heading search (lines 389-407): span ids `Build_Cost`,
`Build cost`, `build_cost` in order, then the text match. -/
def buildCostSibs (soup : Node) : Option (List Node) :=
  headingSibsViaSpan "Build_Cost" soup <|> headingSibsViaSpan "Build cost" soup <|>
    headingSibsViaSpan "build_cost" soup <|> headingSibsViaText soup

/-- One row of the legacy Recipe table (lines 588-604): rows whose header
mentions `Ingredient` are skipped; a name and any digit run in the
quantity cell yield an entry — with no zero-count guard. -/
def legacyRowEntry (row : Node) : Option RecipeEntry :=
  let skip := match findFirst "th" row with
    | some h => containsSub (getTextRaw h) (lc "Ingredient")
    | none => false
  if skip then none else
  match findAll "td" row with
  | c0 :: c1 :: _ =>
    let nm := match findFirst "a" c0 with
      | some a => getTextStrip a
      | none => getTextStrip c0
    if nm.isEmpty then none else
    match extractInt (getTextStrip c1) with
    | some q => some ⟨String.mk nm, q⟩
    | none => none
  | _ => none

/-- The legacy fallback (lines 580-604): `span#Recipe`, its heading
parent, the heading's next `table` sibling.  `none` models the uncaught
`AttributeError` when the span has no heading ancestor. -/
def legacyRecipe (soup : Node) : Option (List RecipeEntry) :=
  match findCtx (isSpanWithId "Recipe") soup with
  | none => some []
  | some (_, _, ups) =>
    match ups.find? (fun u => isHeading u.1) with
    | none => none
    | some u =>
      match firstElemWithTag "table" u.2 with
      | none => some []
      | some tbl => some ((findAll "tr" tbl).filterMap legacyRowEntry)

/-- The `Recipe` component of `scrape_recipe_from_page` on a fetched and
parsed page: Build Cost section first, the legacy Recipe table only when
that yields nothing. -/
def scrape_recipe_from_page (soup : Node) : Option (List RecipeEntry) :=
  let recipe := match buildCostSibs soup with
    | some sibs => parseSectionSibs sibs
    | none => []
  if recipe.isEmpty then legacyRecipe soup else some recipe

/-! ## Item records, manual merge, normalizer, main pipeline -/

/-- A consumable reference (`{Name, Hours}`). -/
structure Consumable where
  Name : String
  Hours : PyFloat
deriving DecidableEq

/-- An item record.  Keys a record may lack in the Python dicts
(`Consumables`, `IsConsumable`) carry their falsy defaults. -/
structure Item where
  Name : String
  Recipe : List RecipeEntry
  Power : PowerInfo
  WaterCapacity : Nat
  Consumables : List Consumable := []
  IsConsumable : Bool := false
deriving DecidableEq

/-- Insert into a name-keyed dict in insertion order: an existing key is
overwritten in place, a new key is appended.  `foldl upsert []` is the
Python dict comprehension `{i.get("Name"): i for i in items}` (line 34)
together with `list(by_name.values())`; the manual loop of lines 35-36
performs further upserts. -/
def upsert : List Item → Item → List Item
  | [], x => [x]
  | y :: ys, x => if y.Name = x.Name then x :: ys else y :: upsert ys x

/-- The dict built from an item list, as an ordered association list. -/
def dictByName (items : List Item) : List Item :=
  items.foldl upsert []

/-- The hard-coded manual item list of lines 22-33. -/
def manualItems : List Item :=
  [{ Name := "Pentashield",
     Recipe := [⟨"Calibrated Servoks", 6⟩, ⟨"Steel", 2⟩, ⟨"Cobalt Paste", 20⟩],
     Power := ⟨0, 6⟩,
     WaterCapacity := 0 }]

/-- `merge_manual_items` with the manual source as a parameter. -/
def mergeManualWith (manual items : List Item) : List Item :=
  manual.foldl upsert (dictByName items)

/-- `merge_manual_items` (lines 18-37). -/
def merge_manual_items (items : List Item) : List Item :=
  mergeManualWith manualItems items

/-- The placeholder item synthesized at lines 682-688. -/
def mkMinimalConsumable (n : String) : Item :=
  { Name := n, Recipe := [], Power := ⟨0, 0⟩, WaterCapacity := 0,
    Consumables := [], IsConsumable := true }

/-- One consumable reference of the closure pass (lines 679-689): a
non-empty name not yet known appends a placeholder and becomes known. -/
def consStep (st : List String × List Item) (c : Consumable) : List String × List Item :=
  if c.Name ≠ "" ∧ c.Name ∉ st.1 then
    (st.1 ++ [c.Name], st.2 ++ [mkMinimalConsumable c.Name])
  else st

/-- One item of the closure pass. -/
def itemStep (st : List String × List Item) (i : Item) : List String × List Item :=
  i.Consumables.foldl consStep st

/-- The closure pass of `main` (lines 676-690): synthesize a placeholder
for every referenced consumable name that is not a top-level item, then
extend the list. -/
def ensureConsumables (items : List Item) : List Item :=
  items ++ (items.foldl itemStep (items.map (·.Name), [])).2

/-- The run structure of `main` (lines 629-694).  The update branch
(link collection plus per-page scraping plus its network fetches) is
abstracted as the oracle `scrapeAll`, returning the scraped records and
the number of network calls it made; the offline branch reads the
snapshot (or starts empty) and performs no network call.  Both branches
then merge the manual source and run the closure pass.  The `Nat`
component of the result counts network calls. -/
def mainModel (update : Bool) (scrapeAll : Unit → List Item × Nat)
    (snapshot : Option (List Item)) (manual : List Item) : List Item × Nat :=
  let st := if update then scrapeAll () else
    (match snapshot with
     | some d => d
     | none => [], 0)
  (ensureConsumables (mergeManualWith manual st.1), st.2)

/-! ## Concrete pages and records used by the theorems -/

/-- A page with rows labelled `Power Output: 12` and `Power Draw: 3`. -/
def powerPage : Node :=
  .elem "html" []
    [.elem "h1" [] [.text "Some Machine"],
     .elem "table" []
       [.elem "tr" [] [.elem "th" [] [.text "Power Output"], .elem "td" [] [.text "12"]],
        .elem "tr" [] [.elem "th" [] [.text "Power Draw"], .elem "td" [] [.text "3"]]]]

/-- A page titled `Wind Generator` whose only power row is the ambiguous
`Power: 8`. -/
def windPage : Node :=
  .elem "html" []
    [.elem "h1" [] [.text "Wind Generator"],
     .elem "table" []
       [.elem "tr" [] [.elem "th" [] [.text "Power"], .elem "td" [] [.text "8"]]]]

/-- A page with the single row `Tank Capacity: 1,500 L`. -/
def tankPage : Node :=
  .elem "html" []
    [.elem "table" []
       [.elem "tr" [] [.elem "th" [] [.text "Tank Capacity"], .elem "td" [] [.text "1,500 L"]]]]

/-- A page with two matching water rows, `1,500 L` and `800 liters`. -/
def tankPageTwoRows : Node :=
  .elem "html" []
    [.elem "table" []
       [.elem "tr" [] [.elem "th" [] [.text "Tank Capacity"], .elem "td" [] [.text "1,500 L"]],
        .elem "tr" [] [.elem "th" [] [.text "Water Storage"], .elem "td" [] [.text "800 liters"]]]]

/-- A page whose recipe is only reachable through the legacy Recipe
table, with quantity cell `0`. -/
def legacyZeroPage : Node :=
  .elem "html" []
    [.elem "h2" [] [.elem "span" [("id", "Recipe")] [.text "Recipe"]],
     .elem "table" []
       [.elem "tr" [] [.elem "td" [] [.text "Plank"], .elem "td" [] [.text "0"]]]]

/-- An item referencing the consumable `Fuel Cell`. -/
def itemRefA : Item :=
  { Name := "Machine A", Recipe := [], Power := ⟨0, 0⟩, WaterCapacity := 0,
    Consumables := [⟨"Fuel Cell", ⟨1, 1⟩⟩] }

/-- A second item referencing the same consumable `Fuel Cell`. -/
def itemRefB : Item :=
  { Name := "Machine B", Recipe := [], Power := ⟨0, 0⟩, WaterCapacity := 0,
    Consumables := [⟨"Fuel Cell", ⟨2, 1⟩⟩] }

/-- An item whose consumable list references the empty name. -/
def itemRefEmpty : Item :=
  { Name := "Machine C", Recipe := [], Power := ⟨0, 0⟩, WaterCapacity := 0,
    Consumables := [⟨"", ⟨1, 1⟩⟩] }

/-- A scraped record colliding with the manual `Pentashield` but carrying
a different recipe. -/
def scrapedPentashield : Item :=
  { Name := "Pentashield", Recipe := [⟨"Steel", 1⟩], Power := ⟨0, 0⟩, WaterCapacity := 0 }

/-! ## Lemmas about the name-keyed dict -/

theorem upsert_map_name (l : List Item) (x : Item) :
    (upsert l x).map (·.Name) =
      if x.Name ∈ l.map (·.Name) then l.map (·.Name) else l.map (·.Name) ++ [x.Name] := by
  induction l with
  | nil => simp [upsert]
  | cons y ys ih =>
    by_cases hy : y.Name = x.Name
    · simp [upsert, hy]
    · have hxy : ¬x.Name = y.Name := fun e => hy e.symm
      simp only [upsert, if_neg hy, List.map_cons, ih]
      by_cases hx : x.Name ∈ ys.map (·.Name)
      · rw [if_pos hx, if_pos (List.mem_cons_of_mem _ hx)]
      · have hnx : x.Name ∉ y.Name :: ys.map (·.Name) := by
          simp only [List.mem_cons]
          push_neg
          exact ⟨hxy, hx⟩
        rw [if_neg hx, if_neg hnx, List.cons_append]

theorem upsert_nodup (l : List Item) (x : Item) (h : (l.map (·.Name)).Nodup) :
    ((upsert l x).map (·.Name)).Nodup := by
  rw [upsert_map_name]
  split
  · exact h
  · next hx =>
    rw [List.nodup_append]
    refine ⟨h, List.nodup_singleton _, ?_⟩
    intro m hm
    simp only [List.mem_singleton]
    exact fun e => hx (e ▸ hm)

theorem foldl_upsert_nodup (l : List Item) (acc : List Item)
    (h : (acc.map (·.Name)).Nodup) : ((l.foldl upsert acc).map (·.Name)).Nodup := by
  induction l generalizing acc with
  | nil => exact h
  | cons x xs ih => exact ih (upsert acc x) (upsert_nodup acc x h)

theorem dictByName_nodup (l : List Item) : ((dictByName l).map (·.Name)).Nodup :=
  foldl_upsert_nodup l [] (by simp)

theorem upsert_append_of_not_mem (l : List Item) (x : Item)
    (h : x.Name ∉ l.map (·.Name)) : upsert l x = l ++ [x] := by
  induction l with
  | nil => rfl
  | cons y ys ih =>
    simp only [List.map_cons, List.mem_cons] at h
    push_neg at h
    have hy : ¬y.Name = x.Name := fun e => h.1 e.symm
    simp only [upsert, if_neg hy, List.cons_append]
    rw [ih h.2]

theorem foldl_upsert_id (l acc : List Item) (h : ((acc ++ l).map (·.Name)).Nodup) :
    l.foldl upsert acc = acc ++ l := by
  induction l generalizing acc with
  | nil => simp
  | cons x xs ih =>
    have h' := h
    rw [List.map_append, List.nodup_append] at h'
    have hx : x.Name ∉ acc.map (·.Name) := by
      intro hm
      exact h'.2.2 hm (by simp)
    rw [List.foldl_cons, upsert_append_of_not_mem acc x hx, ih]
    · simp
    · simpa using h

theorem dictByName_id (l : List Item) (h : (l.map (·.Name)).Nodup) : dictByName l = l := by
  simpa [dictByName] using foldl_upsert_id l [] (by simpa)

theorem upsert_upsert (l : List Item) (x : Item) : upsert (upsert l x) x = upsert l x := by
  induction l with
  | nil => simp [upsert]
  | cons y ys ih =>
    by_cases hy : y.Name = x.Name
    · simp [upsert, hy]
    · simp [upsert, hy, ih]

/-! ## Lemmas about the consumable closure pass -/

/-- Names the inner loop of the closure pass appends for one consumable
list, given the names already known. -/
def newNames (seen : List String) : List Consumable → List String
  | [] => []
  | c :: cs =>
    if c.Name ≠ "" ∧ c.Name ∉ seen then c.Name :: newNames (seen ++ [c.Name]) cs
    else newNames seen cs

/-- Names the closure pass appends over a whole item list. -/
def newNamesItems (seen : List String) : List Item → List String
  | [] => []
  | i :: rest =>
    newNames seen i.Consumables ++ newNamesItems (seen ++ newNames seen i.Consumables) rest

theorem consStep_pos (seen : List String) (acc : List Item) (c : Consumable)
    (hc : c.Name ≠ "" ∧ c.Name ∉ seen) :
    consStep (seen, acc) c = (seen ++ [c.Name], acc ++ [mkMinimalConsumable c.Name]) := by
  unfold consStep
  exact if_pos hc

theorem consStep_neg (seen : List String) (acc : List Item) (c : Consumable)
    (hc : ¬(c.Name ≠ "" ∧ c.Name ∉ seen)) : consStep (seen, acc) c = (seen, acc) := by
  unfold consStep
  exact if_neg hc

theorem consFold_eq (cs : List Consumable) (seen : List String) (acc : List Item) :
    cs.foldl consStep (seen, acc) =
      (seen ++ newNames seen cs, acc ++ (newNames seen cs).map mkMinimalConsumable) := by
  induction cs generalizing seen acc with
  | nil => simp [newNames]
  | cons c cs ih =>
    rw [List.foldl_cons]
    by_cases hc : c.Name ≠ "" ∧ c.Name ∉ seen
    · rw [consStep_pos seen acc c hc, ih]
      simp only [newNames, if_pos hc]
      simp [List.append_assoc]
    · rw [consStep_neg seen acc c hc, ih]
      simp only [newNames, if_neg hc]

theorem itemsFold_eq (l : List Item) (seen : List String) (acc : List Item) :
    l.foldl itemStep (seen, acc) =
      (seen ++ newNamesItems seen l, acc ++ (newNamesItems seen l).map mkMinimalConsumable) := by
  induction l generalizing seen acc with
  | nil => simp [newNamesItems]
  | cons i rest ih =>
    rw [List.foldl_cons]
    show (rest.foldl itemStep (i.Consumables.foldl consStep (seen, acc))) = _
    rw [consFold_eq, ih]
    simp [newNamesItems, List.append_assoc]

theorem mem_newNames (n : String) (cs : List Consumable) (seen : List String) :
    n ∈ newNames seen cs ↔ n ≠ "" ∧ n ∉ seen ∧ ∃ c ∈ cs, c.Name = n := by
  induction cs generalizing seen with
  | nil => simp [newNames]
  | cons c cs ih =>
    by_cases hc : c.Name ≠ "" ∧ c.Name ∉ seen
    · simp only [newNames, if_pos hc]
      constructor
      · intro hmem
        rcases List.mem_cons.mp hmem with rfl | h'
        · exact ⟨hc.1, hc.2, c, List.mem_cons_self _ _, rfl⟩
        · rcases (ih _).mp h' with ⟨h1, h2, x, hx, hxn⟩
          exact ⟨h1, fun hs => h2 (List.mem_append_left _ hs), x,
            List.mem_cons_of_mem _ hx, hxn⟩
      · rintro ⟨h1, h2, x, hx, hxn⟩
        rcases List.mem_cons.mp hx with rfl | hx'
        · subst hxn
          exact List.mem_cons_self _ _
        · by_cases hn : n = c.Name
          · rw [hn]
            exact List.mem_cons_self _ _
          · refine List.mem_cons_of_mem _ ((ih _).mpr ⟨h1, ?_, x, hx', hxn⟩)
            intro hm
            rcases List.mem_append.mp hm with h | h
            · exact h2 h
            · exact hn (List.mem_singleton.mp h)
    · simp only [newNames, if_neg hc]
      rw [ih]
      constructor
      · rintro ⟨h1, h2, x, hx, hxn⟩
        exact ⟨h1, h2, x, List.mem_cons_of_mem _ hx, hxn⟩
      · rintro ⟨h1, h2, x, hx, hxn⟩
        rcases List.mem_cons.mp hx with rfl | hx'
        · exact absurd ⟨hxn ▸ h1, hxn ▸ h2⟩ hc
        · exact ⟨h1, h2, x, hx', hxn⟩

theorem newNames_not_seen (cs : List Consumable) (seen : List String) :
    ∀ n ∈ newNames seen cs, n ∉ seen :=
  fun n h => ((mem_newNames n cs seen).mp h).2.1

theorem newNames_nodup (cs : List Consumable) (seen : List String) :
    (newNames seen cs).Nodup := by
  induction cs generalizing seen with
  | nil => simp [newNames]
  | cons c cs ih =>
    simp only [newNames]
    split
    · rw [List.nodup_cons]
      refine ⟨fun hmem => ?_, ih _⟩
      exact newNames_not_seen cs (seen ++ [c.Name]) _ hmem (by simp)
    · exact ih _

theorem mem_newNamesItems (n : String) (l : List Item) (seen : List String) :
    n ∈ newNamesItems seen l ↔
      n ≠ "" ∧ n ∉ seen ∧ ∃ i ∈ l, ∃ c ∈ i.Consumables, c.Name = n := by
  induction l generalizing seen with
  | nil => simp [newNamesItems]
  | cons i rest ih =>
    simp only [newNamesItems, List.mem_append]
    rw [mem_newNames, ih]
    constructor
    · rintro (⟨h1, h2, x, hx, hxn⟩ | ⟨h1, h2, it, hit, cc, hcc, hcn⟩)
      · exact ⟨h1, h2, i, List.mem_cons_self _ _, x, hx, hxn⟩
      · exact ⟨h1, fun hs => h2 (List.mem_append_left _ hs), it,
          List.mem_cons_of_mem _ hit, cc, hcc, hcn⟩
    · rintro ⟨h1, h2, it, hit, cc, hcc, hcn⟩
      rcases List.mem_cons.mp hit with rfl | hit'
      · exact Or.inl ⟨h1, h2, cc, hcc, hcn⟩
      · by_cases hn : n ∈ newNames seen i.Consumables
        · exact Or.inl ((mem_newNames n i.Consumables seen).mp hn)
        · exact Or.inr ⟨h1, fun hm => (List.mem_append.mp hm).elim h2 hn, it, hit', cc, hcc, hcn⟩

theorem newNamesItems_not_seen (l : List Item) (seen : List String) :
    ∀ n ∈ newNamesItems seen l, n ∉ seen :=
  fun n h => ((mem_newNamesItems n l seen).mp h).2.1

theorem newNamesItems_nodup (l : List Item) (seen : List String) :
    (newNamesItems seen l).Nodup := by
  induction l generalizing seen with
  | nil => simp [newNamesItems]
  | cons i rest ih =>
    simp only [newNamesItems]
    rw [List.nodup_append]
    refine ⟨newNames_nodup _ _, ih _, ?_⟩
    intro a ha ha'
    exact newNamesItems_not_seen rest _ a ha' (List.mem_append_right _ ha)

theorem filter_eq_single_of_nodup (l : List String) (n : String) (hd : l.Nodup) (hm : n ∈ l) :
    l.filter (fun m => m = n) = [n] := by
  induction l with
  | nil => cases hm
  | cons a as ih =>
    rw [List.nodup_cons] at hd
    rcases List.mem_cons.mp hm with he | hm'
    · rw [he, List.filter_cons_of_pos (by simp)]
      have hnil : as.filter (fun m => m = a) = [] := by
        rw [List.filter_eq_nil_iff]
        intro m hmm
        simp only [decide_eq_true_eq]
        exact fun e => hd.1 (e ▸ hmm)
      rw [hnil]
    · have han : ¬(a = n) := fun e => hd.1 (e ▸ hm')
      rw [List.filter_cons_of_neg (by simpa using han)]
      exact ih hd.2 hm'

theorem filter_name_map_mk (l : List String) (n : String) :
    (l.map mkMinimalConsumable).filter (fun j => j.Name = n) =
      (l.filter (fun m => m = n)).map mkMinimalConsumable := by
  induction l with
  | nil => rfl
  | cons a as ih =>
    by_cases ha : a = n
    · rw [List.map_cons, List.filter_cons_of_pos (by simp [mkMinimalConsumable, ha]),
        List.filter_cons_of_pos (by simp [ha]), List.map_cons, ih]
    · rw [List.map_cons, List.filter_cons_of_neg (by simp [mkMinimalConsumable, ha]),
        List.filter_cons_of_neg (by simp [ha]), ih]

/-! ## Lemmas about the guarded recipe paths -/

theorem guard_some_pos (nm : List Char) (q : Nat) (e : RecipeEntry)
    (h : (if !nm.isEmpty && q ≠ 0 then some (⟨String.mk nm, q⟩ : RecipeEntry) else none) =
      some e) : 1 ≤ e.Count := by
  split at h
  · next hc =>
    cases h
    have hq : q ≠ 0 := by
      have := (Bool.and_eq_true _ _).mp hc
      simpa using this.2
    show 1 ≤ q
    omega
  · cases h

theorem liEntryList_count_pos (li : Node) (e : RecipeEntry)
    (h : liEntryList li = some e) : 1 ≤ e.Count := by
  simp only [liEntryList] at h
  exact guard_some_pos _ _ _ h

theorem cellLiEntry_count_pos (li : Node) (e : RecipeEntry)
    (h : cellLiEntry li = some e) : 1 ≤ e.Count := by
  unfold cellLiEntry at h
  split at h
  · exact guard_some_pos _ _ _ h
  · cases h

theorem twoCellEntry_count_pos (c0 c1 : Node) (e : RecipeEntry)
    (h : twoCellEntry c0 c1 = some e) : 1 ≤ e.Count := by
  simp only [twoCellEntry] at h
  split at h
  · exact guard_some_pos _ _ _ h
  · cases h

theorem hdrAnchorStep_shape (st : List String × List RecipeEntry)
    (ctx : List Node × Node × List Node) :
    hdrAnchorStep st ctx = st ∨
      ∃ nm q, q ≠ 0 ∧ hdrAnchorStep st ctx = (st.1 ++ [nm], st.2 ++ [⟨nm, q⟩]) := by
  unfold hdrAnchorStep
  split
  · exact Or.inl rfl
  · split
    · split
      · next hq => exact Or.inr ⟨_, _, hq.1, rfl⟩
      · exact Or.inl rfl
    · exact Or.inl rfl

theorem singleAnchorStep_shape (st : List String × List RecipeEntry)
    (ctx : List Node × Node × List Node) :
    singleAnchorStep st ctx = st ∨
      ∃ nm q, q ≠ 0 ∧ singleAnchorStep st ctx = (st.1 ++ [nm], st.2 ++ [⟨nm, q⟩]) := by
  unfold singleAnchorStep
  split
  · exact Or.inl rfl
  · split
    · split
      · next hq => exact Or.inr ⟨_, _, hq, rfl⟩
      · exact Or.inl rfl
    · exact Or.inl rfl

theorem foldl_hdrAnchorStep_pos (l : List (List Node × Node × List Node))
    (st : List String × List RecipeEntry) (hst : ∀ e ∈ st.2, 1 ≤ e.Count) :
    ∀ e ∈ (l.foldl hdrAnchorStep st).2, 1 ≤ e.Count := by
  induction l generalizing st with
  | nil => exact hst
  | cons c cs ih =>
    rw [List.foldl_cons]
    apply ih
    rcases hdrAnchorStep_shape st c with hs | ⟨nm, q, hq, hs⟩
    · rw [hs]; exact hst
    · rw [hs]
      intro e he
      rcases List.mem_append.mp he with h | h
      · exact hst e h
      · have : e = ⟨nm, q⟩ := List.mem_singleton.mp h
        rw [this]
        show 1 ≤ q
        omega

theorem foldl_singleAnchorStep_pos (l : List (List Node × Node × List Node))
    (st : List String × List RecipeEntry) (hst : ∀ e ∈ st.2, 1 ≤ e.Count) :
    ∀ e ∈ (l.foldl singleAnchorStep st).2, 1 ≤ e.Count := by
  induction l generalizing st with
  | nil => exact hst
  | cons c cs ih =>
    rw [List.foldl_cons]
    apply ih
    rcases singleAnchorStep_shape st c with hs | ⟨nm, q, hq, hs⟩
    · rw [hs]; exact hst
    · rw [hs]
      intro e he
      rcases List.mem_append.mp he with h | h
      · exact hst e h
      · have : e = ⟨nm, q⟩ := List.mem_singleton.mp h
        rw [this]
        show 1 ≤ q
        omega

theorem hdrCellAnchorFold_pos (cell : Node) :
    ∀ e ∈ hdrCellAnchorFold cell, 1 ≤ e.Count :=
  foldl_hdrAnchorStep_pos (anchorsCtx cell) ([], []) (by intro e he; cases he)

theorem singleCellAnchors_pos (cell : Node) :
    ∀ e ∈ singleCellAnchors cell, 1 ≤ e.Count :=
  foldl_singleAnchorStep_pos (anchorsCtx cell) ([], []) (by intro e he; cases he)

/-! ## Claim theorems -/

/-- C1: the result of power extraction never has both `Provides > 0` and
`Consumes > 0`: whenever both values are non-zero before the final
correction, `Consumes` is zeroed; in particular, a page with a row
labelled `Power Output: 12` and a row labelled `Power Draw: 3` yields
`{Provides: 12, Consumes: 0}`. -/
theorem power_never_both_nonzero :
    (∀ soup : Node, (parse_power_from_page soup).Provides = 0 ∨
        (parse_power_from_page soup).Consumes = 0) ∧
    (∀ soup : Node, ∀ p c : Nat, powerResolved soup = (p, c) → 0 < p → 0 < c →
        parse_power_from_page soup = ⟨p, 0⟩) ∧
    parse_power_from_page powerPage = ⟨12, 0⟩ := by
  refine ⟨?_, ?_, by decide⟩
  · intro soup
    unfold parse_power_from_page
    by_cases h : 0 < (powerResolved soup).1 ∧ 0 < (powerResolved soup).2
    · rw [if_pos h]
      exact Or.inr rfl
    · rw [if_neg h]
      by_cases h1 : (powerResolved soup).1 = 0
      · exact Or.inl h1
      · refine Or.inr ?_
        show (powerResolved soup).2 = 0
        omega
  · intro soup p c hpc hp hc
    unfold parse_power_from_page
    rw [hpc]
    rw [if_pos ⟨hp, hc⟩]

theorem power_never_both_nonzero_witness :
    powerResolved powerPage = (12, 3) ∧ parse_power_from_page powerPage = ⟨12, 0⟩ :=
  ⟨by decide, power_never_both_nonzero.2.1 powerPage 12 3 (by decide) (by decide) (by decide)⟩

/-- C2 counterexample: on a page whose recipe comes from the legacy
Recipe-table fallback with quantity cell `0`, the extracted recipe
contains the pair `{Plank, 0}`, so not every extracted pair has
`Count ≥ 1`. -/
theorem recipe_count_zero_counterexample :
    ¬ (∀ r : List RecipeEntry, scrape_recipe_from_page legacyZeroPage = some r →
        ∀ e ∈ r, 1 ≤ e.Count) := by
  intro h
  have h0 := h [⟨"Plank", 0⟩] (by decide) ⟨"Plank", 0⟩ (by decide)
  exact absurd h0 (by decide)

/-- C2 as amended: every `{Name, Count}` pair produced by the guarded
extraction paths — the Build Cost list path, the in-cell list path, the
standard two-cell table rows, and both anchor-scanning paths — has
`Count ≥ 1`; the plain-text regex fallbacks and the legacy Recipe-table
fallback carry no such guard and may emit zero counts. -/
theorem recipe_guarded_counts_pos :
    (∀ li e, liEntryList li = some e → 1 ≤ e.Count) ∧
    (∀ li e, cellLiEntry li = some e → 1 ≤ e.Count) ∧
    (∀ c0 c1 e, twoCellEntry c0 c1 = some e → 1 ≤ e.Count) ∧
    (∀ cell e, e ∈ hdrCellAnchorFold cell → 1 ≤ e.Count) ∧
    (∀ cell e, e ∈ singleCellAnchors cell → 1 ≤ e.Count) :=
  ⟨liEntryList_count_pos, cellLiEntry_count_pos, twoCellEntry_count_pos,
    hdrCellAnchorFold_pos, singleCellAnchors_pos⟩

theorem recipe_guarded_counts_pos_witness :
    1 ≤ (RecipeEntry.mk "Plank" 10).Count ∧ 1 ≤ (RecipeEntry.mk "Plank" 4).Count :=
  ⟨recipe_guarded_counts_pos.1 (Node.elem "li" [] [Node.text "10x Plank"]) ⟨"Plank", 10⟩
      (by decide),
   recipe_guarded_counts_pos.2.2.1 (Node.elem "td" [] [Node.text "Plank"])
      (Node.elem "td" [] [Node.text "4"]) ⟨"Plank", 4⟩ (by decide)⟩

/-- C3 counterexample: the closure pass skips falsy names.  The item
`Machine C` references the empty consumable name, which is not a
top-level item, yet no placeholder with that name appears in the final
output. -/
theorem placeholder_empty_name_counterexample :
    (⟨"", ⟨1, 1⟩⟩ : Consumable) ∈ itemRefEmpty.Consumables ∧
    itemRefEmpty ∈ [itemRefEmpty] ∧
    (∀ i ∈ [itemRefEmpty], i.Name ≠ "") ∧
    mkMinimalConsumable "" ∉ ensureConsumables [itemRefEmpty] := by
  exact ⟨by decide, by decide, by decide, by decide⟩

/-- C3 as amended: for every *non-empty* name referenced inside any
item's `Consumables` list that is not already a top-level item, exactly
one synthetic placeholder — empty recipe, zero power, zero water
capacity, `IsConsumable` set — appears among the records with that name
in the final output, even when the name is referenced by several
items. -/
theorem placeholder_unique (items : List Item) (n : String) (h1 : n ≠ "")
    (h2 : ∃ i ∈ items, ∃ c ∈ i.Consumables, c.Name = n)
    (h3 : ∀ i ∈ items, i.Name ≠ n) :
    (ensureConsumables items).filter (fun j => j.Name = n) = [mkMinimalConsumable n] := by
  unfold ensureConsumables
  rw [itemsFold_eq, List.filter_append]
  have hfst : items.filter (fun j => j.Name = n) = [] := by
    rw [List.filter_eq_nil_iff]
    intro i hi
    simpa using h3 i hi
  have hnotin : n ∉ items.map (·.Name) := by
    intro hm
    rcases List.mem_map.mp hm with ⟨i, hi, he⟩
    exact h3 i hi he
  have hmem : n ∈ newNamesItems (items.map (·.Name)) items :=
    (mem_newNamesItems n items (items.map (·.Name))).mpr ⟨h1, hnotin, h2⟩
  rw [hfst]
  simp only [List.nil_append]
  rw [filter_name_map_mk,
    filter_eq_single_of_nodup _ n (newNamesItems_nodup items _) hmem]
  rfl

theorem placeholder_unique_witness :
    (ensureConsumables [itemRefA, itemRefB]).filter (fun j => j.Name = "Fuel Cell") =
      [mkMinimalConsumable "Fuel Cell"] :=
  placeholder_unique [itemRefA, itemRefB] "Fuel Cell" (by decide)
    ⟨itemRefA, by decide, ⟨"Fuel Cell", ⟨1, 1⟩⟩, by decide, rfl⟩ (by decide)

/-- C4: merging any item list with the manual override set yields at most
one record per `Name` (the name list of the result has no duplicates),
and on a name collision the manual record wins: merging a scraped set
containing a `Pentashield` record yields exactly the manual list, whose
only member is the manual `Pentashield` definition. -/
theorem merge_manual_unique_and_wins :
    (∀ items : List Item, ((merge_manual_items items).map (·.Name)).Nodup) ∧
    merge_manual_items [scrapedPentashield] = manualItems ∧
    (merge_manual_items [scrapedPentashield]).filter (fun i => i.Name = "Pentashield") =
      manualItems := by
  refine ⟨?_, by decide, by decide⟩
  intro items
  unfold merge_manual_items mergeManualWith
  exact foldl_upsert_nodup manualItems (dictByName items) (dictByName_nodup items)

theorem merge_manual_unique_and_wins_witness :
    ((merge_manual_items [scrapedPentashield]).map (·.Name)).Nodup :=
  merge_manual_unique_and_wins.1 [scrapedPentashield]

/-- C5: the four recognised quantity-string shapes all map to the pair
`(10, "Plank")`, with the patterns tried in the fixed priority order
embodied in `parseQtyNameC`. -/
theorem quantity_name_shapes :
    parse_quantity_and_name "10x Plank" = some (10, "Plank") ∧
    parse_quantity_and_name "Plank x10" = some (10, "Plank") ∧
    parse_quantity_and_name "Plank (10)" = some (10, "Plank") ∧
    parse_quantity_and_name "10 Plank" = some (10, "Plank") := by
  exact ⟨by decide, by decide, by decide, by decide⟩

/-- C6: the hour parser returns 1.5 hours for `90m`, `1.5h` and
`90 minutes` (minutes are divided by 60, the compact `h` suffix is
recognised) and 1.0 for `1h`; values are exact fractions equal to 3/2
and 1/1 respectively. -/
theorem hour_parser_values :
    parse_hours "90m" = some ⟨90, 60⟩ ∧ PyFloat.eqv ⟨90, 60⟩ ⟨3, 2⟩ ∧
    parse_hours "1.5h" = some ⟨15, 10⟩ ∧ PyFloat.eqv ⟨15, 10⟩ ⟨3, 2⟩ ∧
    parse_hours "90 minutes" = some ⟨90, 60⟩ ∧
    parse_hours "1h" = some ⟨1, 1⟩ ∧ PyFloat.eqv ⟨1, 1⟩ ⟨1, 1⟩ := by
  exact ⟨by decide, by decide, by decide, by decide, by decide, by decide, by decide⟩

/-- C7: when the table scan and the text fallback leave both sides at
zero but ambiguous `power`-labelled candidates exist, the largest
ambiguous value becomes `Provides` on a generator-titled page and
`Consumes` otherwise. -/
theorem ambiguous_power_resolution (soup : Node) (amb : List Nat)
    (h : powerAfterText soup = ⟨0, 0, amb⟩) (hne : amb ≠ []) :
    parse_power_from_page soup =
      if isGeneratorPage soup then ⟨pyMax amb, 0⟩ else ⟨0, pyMax amb⟩ := by
  have hres : powerResolved soup =
      if isGeneratorPage soup then (pyMax amb, 0) else (0, pyMax amb) := by
    unfold powerResolved
    rw [h]
    exact if_pos ⟨hne, rfl, rfl⟩
  unfold parse_power_from_page
  rw [hres]
  by_cases hg : isGeneratorPage soup
  · simp only [if_pos hg]
    rw [if_neg (fun hx => Nat.lt_irrefl 0 hx.2)]
  · simp only [if_neg hg]
    rw [if_neg (fun hx => Nat.lt_irrefl 0 hx.1)]

theorem ambiguous_power_resolution_witness :
    parse_power_from_page windPage = ⟨8, 0⟩ := by
  have h := ambiguous_power_resolution windPage [8] (by decide) (by decide)
  rw [h]
  decide

/-- C8: water-capacity extraction parses the row `Tank Capacity: 1,500 L`
comma-tolerantly to the integer 1500, and takes the maximum over all
matching rows (a second matching row with 800 liters does not change the
result). -/
theorem water_capacity_rows :
    parse_water_capacity_from_page tankPage = 1500 ∧
    parseLiters (lc "1,500 L") = some 1500 ∧
    parse_water_capacity_from_page tankPageTwoRows = 1500 := by
  exact ⟨by decide, by decide, by decide⟩

/-- C9: the offline branch (no `--update`) with no prior snapshot and an
empty manual-override source produces an empty final array and performs
zero network calls, whatever the update-mode scraper would have done. -/
theorem offline_empty_run (scrapeAll : Unit → List Item × Nat) :
    mainModel false scrapeAll none [] = ([], 0) := rfl

theorem offline_empty_run_witness :
    mainModel false (fun _ => ([scrapedPentashield], 7)) none [] = ([], 0) :=
  offline_empty_run (fun _ => ([scrapedPentashield], 7))

/-- C10: the manual-override merge is idempotent: applying it twice
yields exactly the same record list as applying it once. -/
theorem merge_manual_idempotent (items : List Item) :
    merge_manual_items (merge_manual_items items) = merge_manual_items items := by
  unfold merge_manual_items mergeManualWith manualItems
  simp only [List.foldl_cons, List.foldl_nil]
  rw [dictByName_id _ (upsert_nodup _ _ (dictByName_nodup items)), upsert_upsert]

theorem merge_manual_idempotent_witness :
    merge_manual_items (merge_manual_items [scrapedPentashield]) =
      merge_manual_items [scrapedPentashield] :=
  merge_manual_idempotent [scrapedPentashield]
